import Mathlib

/-!
Shallow embedding of the Markdoc heading extraction, table-of-contents
construction and active-section tracking logic of the markprompt docs
renderer (source: the component file defining `collectMarkdocHeadings`,
`createTOC`, `generateID` and `useTableOfContents`).

JavaScript runtime values that matter to the embedded functions (string
truthiness, `typeof` checks, `undefined` fields, out-of-bounds array
assignment) are modelled explicitly; machine numbers are modelled as `Int`
(the source only ever compares and adds them).
-/

namespace Markprompt

/-- Fragment of JavaScript values as they occur in heading attributes and
renderable-tree children: strings, numbers, booleans, `null`, `undefined`. -/
inductive AttrVal where
  | vstr (s : String)
  | vnum (n : Int)
  | vbool (b : Bool)
  | vnull
  | vundef
deriving DecidableEq, Repr

/-- JavaScript truthiness for the modelled value fragment: the empty string,
zero, `false`, `null` and `undefined` are falsy. -/
def jsTruthy : AttrVal → Bool
  | .vstr s => !(s == "")
  | .vnum n => !(n == 0)
  | .vbool b => b
  | .vnull => false
  | .vundef => false

/-- Models the JavaScript test `typeof v === 'string'`. -/
def jsTypeofString : AttrVal → Bool
  | .vstr _ => true
  | _ => false

/-- String payload of a value; the non-string branch is unreachable at the
single call site, which is guarded by `jsTypeofString`. -/
def AttrVal.asString : AttrVal → String
  | .vstr s => s
  | _ => ""

/-- Character class of the JavaScript regular-expression whitespace `\s`:
ASCII whitespace plus the Unicode space separators, NBSP, line and paragraph
separators and the BOM. -/
def isJsSpace (c : Char) : Bool :=
  c == ' ' || c == '\t' || c == '\n' || c == '\r' || c == '\x0b' || c == '\x0c' ||
  c == '\u00A0' || c == '\u1680' ||
  ('\u2000' ≤ c && c ≤ '\u200A') ||
  c == '\u2028' || c == '\u2029' || c == '\u202F' || c == '\u205F' ||
  c == '\u3000' || c == '\uFEFF'

/-- Models `.replace(/[?]/g, '')`: delete every question mark. -/
def removeQs (l : List Char) : List Char :=
  l.filter (fun c => c ≠ '?')

/-- Worker for `collapseWs`; the flag records whether the previous character
was whitespace (i.e. the scan is inside a run that already emitted its hyphen). -/
def collapseWsAux : Bool → List Char → List Char
  | _, [] => []
  | inRun, c :: cs =>
    if isJsSpace c then
      if inRun then collapseWsAux true cs
      else '-' :: collapseWsAux true cs
    else c :: collapseWsAux false cs

/-- Models `.replace(/\s+/g, '-')`: every maximal run of whitespace becomes a
single hyphen. -/
def collapseWs (l : List Char) : List Char :=
  collapseWsAux false l

/-- Models `.toLowerCase()` on the ASCII fragment the embedding works over. -/
def toLowerChars (l : List Char) : List Char :=
  l.map Char.toLower

/-- The text children kept by `children.filter((child) => typeof child === 'string')`. -/
def stringChildren (children : List AttrVal) : List String :=
  children.filterMap (fun c => match c with | .vstr s => some s | _ => none)

/-- The derived-slug pipeline of `generateID`: join the string children with
single spaces, drop question marks, collapse whitespace runs to hyphens,
lowercase. -/
def slugify (children : List AttrVal) : String :=
  ⟨toLowerChars (collapseWs (removeQs (String.intercalate " " (stringChildren children)).data))⟩

/-- Embedding of `generateID(children, attributes)`; `idAttr` is the value of
`attributes.id`. The source guard is `attributes.id && typeof attributes.id === 'string'`,
so an absent, empty-string or non-string id falls through to the derived slug. -/
def generateID (children : List AttrVal) (idAttr : AttrVal) : String :=
  if jsTruthy idAttr && jsTypeofString idAttr then idAttr.asString
  else slugify children

/-- Attributes of a document node, as far as the extractor reads them:
an optional string `id` and an optional numeric `level` (`none` models an
absent attribute, i.e. JavaScript `undefined`). -/
structure HeadingAttrs where
  id : Option String
  level : Option Int
deriving DecidableEq, Repr

/-- A heading collected by the extractor: the spread `{...node.attributes, title}`
restricted to the fields the TOC logic reads. -/
structure MarkdocHeading where
  title : String
  id : Option String
  level : Option Int
deriving DecidableEq, Repr

/-- A renderable document-tree node: either a text leaf (a plain JavaScript
string) or a tag node with a name, attributes and an ordered list of children. -/
inductive DocNode where
  | text (s : String)
  | elem (name : String) (attrs : HeadingAttrs) (children : List DocNode)
deriving Repr

mutual

/-- One step of `collectMarkdocHeadings` on a single (truthy) node: a `Heading`
node whose first child is a string contributes one heading, then the children
are traversed in order. A text leaf has no `name` and no `children` array. -/
def collectNode : DocNode → List MarkdocHeading
  | .text _ => []
  | .elem name attrs children =>
    (if name = "Heading" then
      match children.head? with
      | some (.text t) => [⟨t, attrs.id, attrs.level⟩]
      | _ => []
    else []) ++ collectChildren children

/-- Traversal of a child list, front to back. -/
def collectChildren : List DocNode → List MarkdocHeading
  | [] => []
  | c :: cs => collectNode c ++ collectChildren cs

end

/-- Embedding of `collectMarkdocHeadings(node, [])`: a missing (`undefined`)
root is falsy and yields the empty sequence. -/
def collectMarkdocHeadings : Option DocNode → List MarkdocHeading
  | none => []
  | some n => collectNode n

/-- A table-of-contents entry. `title` and `slug` are `Option String` because
the source can materialise an entry by spreading `undefined`
(`toc[h2Index] = { ...undefined, children: [...] }` when a level-3 heading
arrives before any level-2 heading), leaving both fields undefined. -/
inductive TOCEntry where
  | mk (title : Option String) (slug : Option String) (children : List TOCEntry)
deriving Repr

def TOCEntry.title : TOCEntry → Option String
  | .mk t _ _ => t

def TOCEntry.slug : TOCEntry → Option String
  | .mk _ s _ => s

def TOCEntry.children : TOCEntry → List TOCEntry
  | .mk _ _ c => c

abbrev TOC := List TOCEntry

/-- Embedding of the assignment
`toc[i] = { ...toc[i], children: [...(toc[i]?.children || []), e] }`.
In bounds it extends the children of the entry at `i`; out of bounds (which
the source only reaches with `i = 0` on the empty array) JavaScript creates
the element, spreading `undefined` into an entry with undefined title and slug. -/
def jsSetChild (toc : TOC) (i : Nat) (e : TOCEntry) : TOC :=
  match toc[i]? with
  | some old => toc.set i (.mk old.title old.slug (old.children ++ [e]))
  | none => toc ++ [.mk none none [e]]

/-- The fold inside `createTOC`: walk the heading list carrying the TOC built
so far and `h2Index`, the index of the current level-2 entry (initially 0). -/
def createTOCAux : List MarkdocHeading → TOC → Nat → TOC
  | [], toc, _ => toc
  | h :: rest, toc, h2Index =>
    if h.level = some 2 then
      createTOCAux rest (toc ++ [.mk (some h.title) h.id []]) toc.length
    else if h.level = some 3 then
      createTOCAux rest (jsSetChild toc h2Index (.mk (some h.title) h.id [])) h2Index
    else
      createTOCAux rest toc h2Index

/-- The heading-list-to-TOC part of `createTOC`. -/
def createTOCFromHeadings (hs : List MarkdocHeading) : TOC :=
  createTOCAux hs [] 0

/-- Embedding of `createTOC(node)`. -/
def createTOC (node : Option DocNode) : TOC :=
  createTOCFromHeadings (collectMarkdocHeadings node)

/-- The TOCEntry a heading contributes (always created with empty children). -/
def entryOfHeading (h : MarkdocHeading) : TOCEntry :=
  .mk (some h.title) h.id []

/-- Modelled from the spec wording for comparison with `createTOCAux`: the
level-3 headings that follow a level-2 heading, up to (exclusive) the next
level-2 heading, in document order. -/
def tocChildren (hs : List MarkdocHeading) : List TOCEntry :=
  ((hs.takeWhile (fun x => ¬ x.level = some 2)).filter
    (fun x => x.level = some 3)).map entryOfHeading

/-- Modelled from the spec wording for comparison with `createTOCFromHeadings`:
the top-level entries are exactly the level-2 headings in document order, each
carrying as children the level-3 headings that follow it up to the next
level-2; headings of any other level produce no entry. -/
def buildTOCSpec : List MarkdocHeading → TOC
  | [] => []
  | h :: t =>
    if h.level = some 2 then .mk (some h.title) h.id (tocChildren t) :: buildTOCSpec t
    else buildTOCSpec t

/-- The entries contributed by the level-3 headings of a heading-list segment
that precedes the first level-2 heading (used to describe where `createTOC`
puts a leading level-3 heading). -/
def leadingKids (pre : List MarkdocHeading) : List TOCEntry :=
  (pre.filter (fun x => x.level = some 3)).map entryOfHeading

/-- Example document: a level-2 heading, a level-3 heading under it, then a
second level-2 heading (the spec's end-to-end example). -/
def exDoc : DocNode :=
  .elem "article" ⟨none, none⟩
    [ .elem "Heading" ⟨some "intro", some 2⟩ [.text "Intro"],
      .elem "Heading" ⟨some "install", some 3⟩ [.text "Install"],
      .elem "Heading" ⟨some "usage", some 2⟩ [.text "Usage"] ]

/-- Example document whose only heading is a level-3 heading, i.e. a level-3
heading precedes every (absent) level-2 heading. -/
def h3FirstDoc : DocNode :=
  .elem "article" ⟨none, none⟩
    [ .elem "Heading" ⟨some "a", some 3⟩ [.text "A"] ]

/-- A heading position registered at runtime by a mounted heading element. -/
structure ContentHeading where
  id : String
  top : Int
  level : Int
deriving DecidableEq, Repr

/-- Embedding of `registerHeading(id, top, level)`: drop any entry with the
same id, then append the new one. -/
def registerHeading (hs : List ContentHeading) (id : String) (top level : Int) :
    List ContentHeading :=
  hs.filter (fun h => ¬ id = h.id) ++ [⟨id, top, level⟩]

/-- Embedding of `unregisterHeading(id)`: drop any entry with that id. -/
def unregisterHeading (hs : List ContentHeading) (id : String) : List ContentHeading :=
  hs.filter (fun h => ¬ id = h.id)

/-- Comparison relation of the sort `(a, b) => a.top - b.top`. -/
def topLE (a b : ContentHeading) : Prop := a.top ≤ b.top

instance : DecidableRel topLE :=
  fun a b => inferInstanceAs (Decidable (a.top ≤ b.top))

instance : IsTotal ContentHeading topLE :=
  ⟨fun a b => Int.le_total a.top b.top⟩

instance : IsTrans ContentHeading topLE :=
  ⟨fun _ _ _ hab hbc => le_trans hab hbc⟩

/-- Embedding of `headings.concat([]).sort((a, b) => a.top - b.top)`.
JavaScript `Array.prototype.sort` is stable and the comparator is consistent,
so the result is the unique stable ascending-by-`top` ordering; insertion sort
with the non-strict relation `topLE` computes exactly that ordering. -/
def sortByTop (hs : List ContentHeading) : List ContentHeading :=
  hs.insertionSort topLE

/-- The loop condition
`top >= sortedHeadings[i].top && (sortedHeadings[i].level === 2 || sortedHeadings[i].level === 3)`. -/
def qualifies (T : Int) (h : ContentHeading) : Bool :=
  decide (h.top ≤ T) && (h.level == 2 || h.level == 3)

/-- The scan of the sorted headings: `current` is overwritten by the id of
every qualifying heading encountered, in order. -/
def scanCurrent (T : Int) : List ContentHeading → String → String
  | [], cur => cur
  | h :: t, cur => scanCurrent T t (if qualifies T h then h.id else cur)

/-- The threshold `window.pageYOffset + scrollMt + 1` computed by `onScroll`
(`scrollMt` is the parsed `--scroll-margin-top` style value, 0 if unparseable). -/
def thresholdY (pageYOffset scrollMt : Int) : Int :=
  pageYOffset + scrollMt + 1

/-- Embedding of one run of `onScroll` over the registered headings at scroll
threshold `T`: sort ascending by `top`, start from the first sorted heading's
id, overwrite with each qualifying heading's id in order, and return the
result. The empty registered set returns `none` (the source guards this case
out; `sortedHeadings[0].id` would throw). -/
def onScroll (hs : List ContentHeading) (T : Int) : Option String :=
  match sortByTop hs with
  | [] => none
  | h :: t => some (scanCurrent T (h :: t) h.id)

/-- The tracker state of `useTableOfContents`: the current section slug and
the registered headings. -/
structure TrackerState where
  currentSection : Option String
  headings : List ContentHeading
deriving DecidableEq, Repr

/-- The initial tracker state: `useState(toc[0]?.slug)` and no registered
headings. -/
def initState (toc : TOC) : TrackerState :=
  ⟨toc.head?.bind TOCEntry.slug, []⟩

/-- One recomputation, with the guard of the surrounding effect:
`if (toc.length === 0 || headings.length === 0) return;` — otherwise run
`onScroll` and store the computed section. -/
def recompute (toc : TOC) (s : TrackerState) (T : Int) : TrackerState :=
  if toc.length = 0 ∨ s.headings.length = 0 then s
  else
    match onScroll s.headings T with
    | some c => ⟨some c, s.headings⟩
    | none => s

/-! Theorems. -/

theorem TOCEntry.eta (e : TOCEntry) : TOCEntry.mk e.title e.slug e.children = e := by
  cases e; rfl

/-- C5: generateID is deterministic; an explicit string id `"foo"` is returned
regardless of children; with no explicit id the result is the string children
joined with spaces, question marks removed, whitespace runs replaced by
hyphens, and lowercased — e.g. one child `"What is Markprompt?"` slugs to
`"what-is-markprompt"`. -/
theorem generateID_deterministic_explicit_and_slug
    (children : List AttrVal) (idAttr : AttrVal) :
    generateID children idAttr = generateID children idAttr
    ∧ generateID children (.vstr "foo") = "foo"
    ∧ generateID children .vundef =
        ⟨toLowerChars (collapseWs (removeQs
          (String.intercalate " " (stringChildren children)).data))⟩
    ∧ generateID [.vstr "What is Markprompt?"] .vundef = "what-is-markprompt" :=
  ⟨rfl, rfl, rfl, rfl⟩

/-- C10: an explicit id that is the empty string, or any non-string value, is
ignored by generateID, which returns the slug derived from the string children
instead. -/
theorem generateID_ignores_empty_or_nonstring_id
    (children : List AttrVal) (n : Int) (b : Bool) :
    generateID children (.vstr "") = slugify children
    ∧ generateID children (.vnum n) = slugify children
    ∧ generateID children (.vbool b) = slugify children
    ∧ generateID children .vnull = slugify children
    ∧ generateID children .vundef = slugify children := by
  refine ⟨rfl, ?_, ?_, rfl, rfl⟩ <;> simp [generateID, jsTruthy, jsTypeofString]

/-- C9: a missing (undefined) document root yields the empty heading sequence
and the empty TOC; this is the base case of total functions, not an error. -/
theorem extraction_and_toc_empty_on_missing_root :
    collectMarkdocHeadings none = [] ∧ createTOC none = [] :=
  ⟨rfl, rfl⟩

/-- C8: registerHeading is an idempotent upsert: afterwards the entries with
the given id are exactly the single new entry, entries with other ids are
preserved exactly, and applying the same call twice equals applying it once. -/
theorem registerHeading_idempotent_upsert
    (hs : List ContentHeading) (id : String) (top level : Int) :
    (registerHeading hs id top level).filter (fun h => id = h.id)
        = [⟨id, top, level⟩]
    ∧ (registerHeading hs id top level).filter (fun h => ¬ id = h.id)
        = hs.filter (fun h => ¬ id = h.id)
    ∧ registerHeading (registerHeading hs id top level) id top level
        = registerHeading hs id top level := by
  refine ⟨?_, ?_, ?_⟩ <;>
    simp [registerHeading, List.filter_append, List.filter_filter]

/-- C7: with a non-empty TOC and no registered headings, recomputation leaves
the tracker state unchanged, and the initial current section is the slug of
the first top-level TOC entry. -/
theorem recompute_skipped_without_headings
    (e : TOCEntry) (rest : TOC) (cs : Option String) (T : Int) :
    recompute (e :: rest) ⟨cs, []⟩ T = ⟨cs, []⟩
    ∧ initState (e :: rest) = ⟨e.slug, []⟩ := by
  exact ⟨by simp [recompute], by simp [initState]⟩

theorem mem_sortByTop {x : ContentHeading} {hs : List ContentHeading}
    (h : x ∈ sortByTop hs) : x ∈ hs :=
  (List.mem_insertionSort topLE).mp h

theorem mem_of_getLast?_eq {α : Type _} {l : List α} {x : α}
    (h : l.getLast? = some x) : x ∈ l := by
  obtain ⟨hne, rfl⟩ := List.mem_getLast?_eq_getLast (Option.mem_def.mpr h)
  exact List.getLast_mem hne

/-- The scan is the last qualifying heading's id, defaulting to the seed. -/
theorem scanCurrent_eq_getLast (T : Int) (l : List ContentHeading) (cur : String) :
    scanCurrent T l cur
      = ((l.filter (qualifies T)).getLast?.map ContentHeading.id).getD cur := by
  induction l generalizing cur with
  | nil => rfl
  | cons h t ih =>
    by_cases hq : qualifies T h = true
    · rw [scanCurrent, if_pos hq, ih, List.filter_cons_of_pos hq]
      cases hft : t.filter (qualifies T) with
      | nil => rfl
      | cons y ys =>
        rw [List.getLast?_cons_cons,
          List.getLast?_eq_getLast_of_ne_nil (List.cons_ne_nil y ys)]
        rfl
    · rw [scanCurrent, if_neg hq, ih, List.filter_cons_of_neg (by simpa using hq)]

/-- Unfolded form of `onScroll` on a non-empty registered set. -/
theorem onScroll_cons (T : Int) (h : ContentHeading) (t : List ContentHeading)
    (hs : List ContentHeading) (hsort : sortByTop hs = h :: t) :
    onScroll hs T
      = some ((((h :: t).filter (qualifies T)).getLast?.map ContentHeading.id).getD h.id) := by
  have hstep : onScroll hs T = some (scanCurrent T (h :: t) h.id) := by
    rw [onScroll, hsort]
  rw [hstep, scanCurrent_eq_getLast]

/-- Any id returned by `onScroll` is the id of some registered heading. -/
theorem onScroll_mem (hs : List ContentHeading) (T : Int) (c : String)
    (h : onScroll hs T = some c) : ∃ x ∈ hs, x.id = c := by
  cases hsort : sortByTop hs with
  | nil => rw [onScroll, hsort] at h; exact absurd h (by simp)
  | cons hd t =>
    rw [onScroll_cons T hd t hs hsort] at h
    cases hft : ((hd :: t).filter (qualifies T)).getLast? with
    | none =>
      rw [hft] at h
      refine ⟨hd, mem_sortByTop ?_, by simpa using h⟩
      rw [hsort]; exact List.mem_cons_self hd t
    | some x =>
      have hxmem : x ∈ (hd :: t).filter (qualifies T) := mem_of_getLast?_eq hft
      have hxs : x ∈ sortByTop hs := by
        rw [hsort]; exact (List.mem_filter.mp hxmem).1
      rw [hft] at h
      exact ⟨x, mem_sortByTop hxs, by simpa using h⟩

/-- C2 counterexample: with a non-empty TOC and a single registered heading of
level 1, the recomputation sets the current section to that level-1 heading's
id (through the first-sorted-heading fallback). -/
theorem recompute_selects_level1_on_fallback :
    (recompute [.mk (some "t") (some "s") []]
        ⟨some "s", [⟨"a", 0, 1⟩]⟩ 0).currentSection = some "a"
    ∧ (⟨"a", 0, 1⟩ : ContentHeading).level = 1 :=
  ⟨rfl, rfl⟩

/-- C2 as amended: the computed active section is the id of a level-2-or-3
heading whose top is at or above the threshold whenever the scan finds one;
otherwise it is the id of the first heading in sorted order, whatever its
level — so a level-1 heading can only become active via that fallback. -/
theorem active_section_level2or3_or_fallback
    (hs : List ContentHeading) (T : Int) (c : String)
    (h : onScroll hs T = some c) :
    (∃ x ∈ hs, x.id = c ∧ (x.level = 2 ∨ x.level = 3) ∧ x.top ≤ T)
    ∨ (sortByTop hs).head?.map ContentHeading.id = some c := by
  cases hsort : sortByTop hs with
  | nil => rw [onScroll, hsort] at h; exact absurd h (by simp)
  | cons hd t =>
    rw [onScroll_cons T hd t hs hsort] at h
    cases hft : ((hd :: t).filter (qualifies T)).getLast? with
    | none =>
      rw [hft] at h
      right
      simpa using h
    | some x =>
      have hxmem : x ∈ (hd :: t).filter (qualifies T) := mem_of_getLast?_eq hft
      left
      have hxl := List.mem_filter.mp hxmem
      have hq : qualifies T x = true := hxl.2
      rw [qualifies, Bool.and_eq_true, Bool.or_eq_true, decide_eq_true_eq,
        beq_iff_eq, beq_iff_eq] at hq
      rw [hft] at h
      refine ⟨x, mem_sortByTop (hsort ▸ hxl.1), by simpa using h, hq.2, hq.1⟩

/-- C3: the recomputation sorts the registered headings ascending by top (a
stable sort, hence a permutation), and — whenever some level-2-or-3 heading
lies at or above the threshold — the active section is the id of the last such
heading in sorted order; on headings at tops 0, 500, 1000 with levels 2, 2, 3
and threshold 600 the active section is "setup". -/
theorem onScroll_last_qualifying_sorted
    (hs : List ContentHeading) (off mt : Int)
    (hne : (sortByTop hs).filter (qualifies (thresholdY off mt)) ≠ []) :
    onScroll hs (thresholdY off mt)
      = ((sortByTop hs).filter (qualifies (thresholdY off mt))).getLast?.map
          ContentHeading.id
    ∧ List.Sorted topLE (sortByTop hs)
    ∧ (sortByTop hs).Perm hs
    ∧ onScroll [⟨"intro", 0, 2⟩, ⟨"setup", 500, 2⟩, ⟨"usage", 1000, 3⟩] 600
        = some "setup" := by
  refine ⟨?_, List.sorted_insertionSort topLE hs, List.perm_insertionSort topLE hs, rfl⟩
  cases hsort : sortByTop hs with
  | nil => rw [hsort] at hne; simp at hne
  | cons hd t =>
    rw [onScroll_cons (thresholdY off mt) hd t hs hsort]
    rw [hsort] at hne
    cases hft : ((hd :: t).filter (qualifies (thresholdY off mt))).getLast? with
    | none =>
      exact absurd (List.getLast?_eq_none_iff.mp hft) hne
    | some x => rfl

/-- C6: after unregistering an id, no recomputation over the resulting
registered set can select that id as the active section, whatever the
removed heading's former position or the threshold. -/
theorem onScroll_never_selects_unregistered
    (hs : List ContentHeading) (id : String) (T : Int) :
    onScroll (unregisterHeading hs id) T ≠ some id := by
  intro h
  obtain ⟨x, hxmem, hxid⟩ := onScroll_mem _ _ _ h
  have := (List.mem_filter.mp hxmem).2
  rw [decide_eq_true_eq] at this
  exact this hxid.symm

theorem getElem?_append_len {α : Type _} (l : List α) (e : α) :
    (l ++ [e])[l.length]? = some e := by
  induction l with
  | nil => rfl
  | cons a t ih => rw [List.cons_append, List.length_cons, List.getElem?_cons_succ]; exact ih

theorem set_append_len {α : Type _} (l : List α) (e x : α) :
    (l ++ [e]).set l.length x = l ++ [x] := by
  induction l with
  | nil => rfl
  | cons a t ih => rw [List.cons_append, List.length_cons, List.set_cons_succ, ih, List.cons_append]

/-- The in-bounds `toc[h2Index] = ...` assignment when `h2Index` points at the
final entry. -/
theorem jsSetChild_append (toc : TOC) (e c : TOCEntry) :
    jsSetChild (toc ++ [e]) toc.length c
      = toc ++ [TOCEntry.mk e.title e.slug (e.children ++ [c])] := by
  rw [jsSetChild, getElem?_append_len]
  exact set_append_len toc e _

theorem jsSetChild_cons_zero (e : TOCEntry) (tl : TOC) (c : TOCEntry) :
    jsSetChild (e :: tl) 0 c
      = TOCEntry.mk e.title e.slug (e.children ++ [c]) :: tl := by
  rw [jsSetChild, List.getElem?_cons_zero]
  rfl

theorem tocChildren_cons_h2 (h : MarkdocHeading) (t : List MarkdocHeading)
    (h2 : h.level = some 2) : tocChildren (h :: t) = [] := by
  simp [tocChildren, List.takeWhile_cons, h2]

theorem tocChildren_cons_h3 (h : MarkdocHeading) (t : List MarkdocHeading)
    (_h2 : ¬ h.level = some 2) (h3 : h.level = some 3) :
    tocChildren (h :: t) = entryOfHeading h :: tocChildren t := by
  simp [tocChildren, List.takeWhile_cons, List.filter_cons, h3]

theorem tocChildren_cons_other (h : MarkdocHeading) (t : List MarkdocHeading)
    (h2 : ¬ h.level = some 2) (h3 : ¬ h.level = some 3) :
    tocChildren (h :: t) = tocChildren t := by
  simp [tocChildren, List.takeWhile_cons, List.filter_cons, h2, h3]

theorem buildTOCSpec_cons_h2 (h : MarkdocHeading) (t : List MarkdocHeading)
    (h2 : h.level = some 2) :
    buildTOCSpec (h :: t)
      = TOCEntry.mk (some h.title) h.id (tocChildren t) :: buildTOCSpec t := by
  rw [buildTOCSpec, if_pos h2]

theorem buildTOCSpec_cons_not2 (h : MarkdocHeading) (t : List MarkdocHeading)
    (h2 : ¬ h.level = some 2) : buildTOCSpec (h :: t) = buildTOCSpec t := by
  rw [buildTOCSpec, if_neg h2]

theorem jsSetChild_cons_succ (e : TOCEntry) (tl : TOC) (i : Nat) (c : TOCEntry) :
    jsSetChild (e :: tl) (i + 1) c = e :: jsSetChild tl i c := by
  rw [jsSetChild, jsSetChild, List.getElem?_cons_succ]
  cases tl[i]? with
  | none => rfl
  | some old => rfl

/-- Whatever headings follow, the fold only ever appends new entries after the
current head entry or appends children to existing entries, so the head entry
keeps its title and slug and its children only grow at the end. -/
theorem createTOCAux_head_invariant (rest : List MarkdocHeading) :
    ∀ (i : Nat) (e : TOCEntry) (tl : TOC),
    ∃ extra tail, createTOCAux rest (e :: tl) i
      = TOCEntry.mk e.title e.slug (e.children ++ extra) :: tail := by
  induction rest with
  | nil =>
    intro i e tl
    exact ⟨[], tl, by simp [createTOCAux, TOCEntry.eta]⟩
  | cons h t ih =>
    intro i e tl
    rw [createTOCAux]
    by_cases h2 : h.level = some 2
    · rw [if_pos h2]
      have hc : (e :: tl) ++ [TOCEntry.mk (some h.title) h.id []]
          = e :: (tl ++ [TOCEntry.mk (some h.title) h.id []]) := rfl
      rw [hc]
      exact ih _ e _
    · rw [if_neg h2]
      by_cases h3 : h.level = some 3
      · rw [if_pos h3]
        cases i with
        | zero =>
          rw [jsSetChild_cons_zero]
          obtain ⟨extra, tail, hres⟩ :=
            ih 0 (TOCEntry.mk e.title e.slug
              (e.children ++ [TOCEntry.mk (some h.title) h.id []])) tl
          refine ⟨[TOCEntry.mk (some h.title) h.id []] ++ extra, tail, ?_⟩
          rw [hres, TOCEntry.title, TOCEntry.slug, TOCEntry.children,
            List.append_assoc]
        | succ j =>
          rw [jsSetChild_cons_succ]
          exact ih (j + 1) e _
      · rw [if_neg h3]
        exact ih i e tl

/-- When the fold runs with the accumulator ending in the entry `e` that the
index points at, the remaining headings extend `e`'s children with the
level-3 headings up to the next level-2, then continue per the spec builder. -/
theorem createTOCAux_append_last (hs : List MarkdocHeading) :
    ∀ (toc : TOC) (e : TOCEntry),
    createTOCAux hs (toc ++ [e]) toc.length
      = toc ++ TOCEntry.mk e.title e.slug (e.children ++ tocChildren hs)
          :: buildTOCSpec hs := by
  induction hs with
  | nil =>
    intro toc e
    simp [createTOCAux, tocChildren, buildTOCSpec, TOCEntry.eta]
  | cons h t ih =>
    intro toc e
    obtain ⟨et, es, ec⟩ := e
    rw [createTOCAux]
    by_cases h2 : h.level = some 2
    · rw [if_pos h2]
      rw [ih (toc ++ [TOCEntry.mk et es ec]) (TOCEntry.mk (some h.title) h.id [])]
      rw [tocChildren_cons_h2 h t h2, buildTOCSpec_cons_h2 h t h2]
      simp [TOCEntry.title, TOCEntry.slug, TOCEntry.children, List.append_assoc]
    · rw [if_neg h2]
      by_cases h3 : h.level = some 3
      · rw [if_pos h3]
        rw [jsSetChild_append]
        rw [ih toc (TOCEntry.mk (TOCEntry.mk et es ec).title
          (TOCEntry.mk et es ec).slug ((TOCEntry.mk et es ec).children ++
          [TOCEntry.mk (some h.title) h.id []]))]
        rw [tocChildren_cons_h3 h t h2 h3, buildTOCSpec_cons_not2 h t h2]
        simp [TOCEntry.title, TOCEntry.slug, TOCEntry.children,
          entryOfHeading, List.append_assoc]
      · rw [if_neg h3]
        rw [ih toc (TOCEntry.mk et es ec)]
        rw [tocChildren_cons_other h t h2 h3, buildTOCSpec_cons_not2 h t h2]

/-- Starting from the empty accumulator, once the heading list is reached whose
prefix before the first level-2 heading contains no level-3 heading, the fold
computes exactly the spec builder's TOC. -/
theorem createTOCAux_spec_of_clean_prefix : ∀ (hs : List MarkdocHeading),
    (∀ x ∈ hs.takeWhile (fun h => ¬ h.level = some 2), ¬ x.level = some 3) →
    createTOCAux hs [] 0 = buildTOCSpec hs := by
  intro hs
  induction hs with
  | nil => intro _; rfl
  | cons h t ih =>
    intro hpre
    rw [createTOCAux]
    by_cases h2 : h.level = some 2
    · rw [if_pos h2]
      rw [createTOCAux_append_last t [] (TOCEntry.mk (some h.title) h.id [])]
      rw [buildTOCSpec_cons_h2 h t h2]
      simp [TOCEntry.title, TOCEntry.slug, TOCEntry.children]
    · rw [if_neg h2]
      by_cases h3 : h.level = some 3
      · exfalso
        refine hpre h ?_ h3
        rw [List.takeWhile_cons_of_pos (by simpa using h2)]
        exact List.mem_cons_self h _
      · rw [if_neg h3]
        rw [buildTOCSpec_cons_not2 h t h2]
        refine ih ?_
        intro x hx
        refine hpre x ?_
        rw [List.takeWhile_cons_of_pos (by simpa using h2)]
        exact List.mem_cons_of_mem h hx

/-- C4: for a document in which some level-2 heading precedes every level-3
heading, createTOC returns exactly the spec-described structure: top-level
entries are the level-2 headings in document order, each entry's children are
the level-3 headings following it up to the next level-2 in document order,
and headings of level 1 or above 3 produce no entry. -/
theorem createTOC_refines_spec_when_h2_first (node : Option DocNode)
    (hpre : ∀ x ∈ (collectMarkdocHeadings node).takeWhile
        (fun h => ¬ h.level = some 2), ¬ x.level = some 3) :
    createTOC node = buildTOCSpec (collectMarkdocHeadings node) :=
  createTOCAux_spec_of_clean_prefix _ hpre

/-- Witness for C4 on the end-to-end example document. -/
theorem createTOC_refines_spec_when_h2_first_witness :
    createTOC (some exDoc) = buildTOCSpec (collectMarkdocHeadings (some exDoc)) :=
  createTOC_refines_spec_when_h2_first (some exDoc) (by decide)

theorem leadingKids_cons_h3 (h : MarkdocHeading) (p : List MarkdocHeading)
    (h3 : h.level = some 3) :
    leadingKids (h :: p) = entryOfHeading h :: leadingKids p := by
  simp [leadingKids, List.filter_cons, h3]

theorem leadingKids_cons_not3 (h : MarkdocHeading) (p : List MarkdocHeading)
    (h3 : ¬ h.level = some 3) : leadingKids (h :: p) = leadingKids p := by
  simp [leadingKids, List.filter_cons, h3]

/-- While no level-2 heading has been seen, the fold keeps a single synthesized
entry (undefined title and slug) whose children accumulate the level-3
headings in order. -/
theorem createTOCAux_leading_seg (pre : List MarkdocHeading) :
    (∀ x ∈ pre, ¬ x.level = some 2) →
    ∀ (rest : List MarkdocHeading) (ks : List TOCEntry),
    createTOCAux (pre ++ rest) [TOCEntry.mk none none ks] 0
      = createTOCAux rest [TOCEntry.mk none none (ks ++ leadingKids pre)] 0 := by
  induction pre with
  | nil => intro _ rest ks; simp [leadingKids]
  | cons h p ih =>
    intro hpre rest ks
    have h2 : ¬ h.level = some 2 := hpre h (List.mem_cons_self h p)
    rw [List.cons_append, createTOCAux, if_neg h2]
    by_cases h3 : h.level = some 3
    · rw [if_pos h3, jsSetChild_cons_zero]
      rw [TOCEntry.title, TOCEntry.slug, TOCEntry.children]
      rw [show TOCEntry.mk (some h.title) h.id [] = entryOfHeading h from rfl]
      rw [ih (fun x hx => hpre x (List.mem_cons_of_mem h hx)) rest
        (ks ++ [entryOfHeading h])]
      rw [leadingKids_cons_h3 h p h3, List.append_assoc]
      rfl
    · rw [if_neg h3]
      rw [ih (fun x hx => hpre x (List.mem_cons_of_mem h hx)) rest ks]
      rw [leadingKids_cons_not3 h p h3]

/-- From the empty accumulator, a prefix with no level-2 heading either
contributes nothing (no level-3 in it) or produces exactly the synthesized
undefined-titled entry holding its level-3 headings. -/
theorem createTOCAux_from_empty (pre : List MarkdocHeading) :
    (∀ x ∈ pre, ¬ x.level = some 2) → ∀ (rest : List MarkdocHeading),
    (leadingKids pre = [] ∧ createTOCAux (pre ++ rest) [] 0 = createTOCAux rest [] 0)
    ∨ createTOCAux (pre ++ rest) [] 0
        = createTOCAux rest [TOCEntry.mk none none (leadingKids pre)] 0 := by
  induction pre with
  | nil => intro _ rest; exact Or.inl ⟨rfl, rfl⟩
  | cons h p ih =>
    intro hpre rest
    have h2 : ¬ h.level = some 2 := hpre h (List.mem_cons_self h p)
    rw [List.cons_append, createTOCAux, if_neg h2]
    by_cases h3 : h.level = some 3
    · rw [if_pos h3]
      right
      have hjs : jsSetChild [] 0 (TOCEntry.mk (some h.title) h.id [])
          = [TOCEntry.mk none none [entryOfHeading h]] := rfl
      rw [hjs]
      rw [createTOCAux_leading_seg p (fun x hx => hpre x (List.mem_cons_of_mem h hx))
        rest [entryOfHeading h]]
      rw [leadingKids_cons_h3 h p h3]
      rfl
    · rw [if_neg h3]
      rcases ih (fun x hx => hpre x (List.mem_cons_of_mem h hx)) rest with ⟨hk, heq⟩ | heq
      · left
        exact ⟨by rw [leadingKids_cons_not3 h p h3]; exact hk, heq⟩
      · right
        rw [leadingKids_cons_not3 h p h3]
        exact heq

/-- C1 counterexample: on a document whose only heading is a level-3 heading,
createTOC does not drop the heading — it returns a single malformed top-level
entry with undefined title and slug whose children contain that heading. -/
theorem createTOC_leading_h3_counterexample :
    createTOC (some h3FirstDoc)
      = [TOCEntry.mk none none [TOCEntry.mk (some "A") (some "a") []]] := rfl

/-- C1 as amended: a level-3 heading that appears before every level-2 heading
is not dropped from the TOC; the returned TOC starts with a synthesized entry
whose title and slug are undefined and whose children contain that heading's
entry (it never appears as a proper top-level entry). -/
theorem leading_h3_kept_in_synthesized_entry (node : Option DocNode)
    (pre post : List MarkdocHeading) (hd3 : MarkdocHeading)
    (hsplit : collectMarkdocHeadings node = pre ++ hd3 :: post)
    (hpre : ∀ x ∈ pre, ¬ x.level = some 2)
    (hl : hd3.level = some 3) :
    ∃ e tail, createTOC node = e :: tail ∧ e.title = none ∧ e.slug = none
      ∧ entryOfHeading hd3 ∈ e.children := by
  have hstart : createTOC node = createTOCAux (pre ++ hd3 :: post) [] 0 := by
    rw [createTOC, createTOCFromHeadings, hsplit]
  have hn2 : ¬ hd3.level = some 2 := by rw [hl]; simp
  rcases createTOCAux_from_empty pre hpre (hd3 :: post) with ⟨hk, heq⟩ | heq
  · rw [hstart, heq, createTOCAux, if_neg hn2, if_pos hl]
    have hjs : jsSetChild [] 0 (TOCEntry.mk (some hd3.title) hd3.id [])
        = [TOCEntry.mk none none [entryOfHeading hd3]] := rfl
    rw [hjs]
    obtain ⟨extra, tail, hres⟩ :=
      createTOCAux_head_invariant post 0
        (TOCEntry.mk none none [entryOfHeading hd3]) []
    rw [hres]
    exact ⟨_, tail, rfl, rfl, rfl, by simp [TOCEntry.children]⟩
  · rw [hstart, heq, createTOCAux, if_neg hn2, if_pos hl, jsSetChild_cons_zero]
    obtain ⟨extra, tail, hres⟩ :=
      createTOCAux_head_invariant post 0
        (TOCEntry.mk (TOCEntry.mk none none (leadingKids pre)).title
          (TOCEntry.mk none none (leadingKids pre)).slug
          ((TOCEntry.mk none none (leadingKids pre)).children
            ++ [TOCEntry.mk (some hd3.title) hd3.id []])) []
    rw [hres]
    refine ⟨_, tail, rfl, rfl, rfl, ?_⟩
    simp [TOCEntry.children, entryOfHeading]

/-- Witness for C1 on the concrete leading-level-3 document. -/
theorem leading_h3_kept_in_synthesized_entry_witness :
    ∃ e tail, createTOC (some h3FirstDoc) = e :: tail ∧ e.title = none
      ∧ e.slug = none
      ∧ entryOfHeading ⟨"A", some "a", some 3⟩ ∈ e.children :=
  leading_h3_kept_in_synthesized_entry (some h3FirstDoc) [] []
    ⟨"A", some "a", some 3⟩ rfl (by simp) rfl

/-- Witness for C2's amended statement on a single level-2 heading. -/
theorem active_section_level2or3_or_fallback_witness :
    (∃ x ∈ [(⟨"intro", 0, 2⟩ : ContentHeading)],
      x.id = "intro" ∧ (x.level = 2 ∨ x.level = 3) ∧ x.top ≤ (0 : Int))
    ∨ (sortByTop [(⟨"intro", 0, 2⟩ : ContentHeading)]).head?.map ContentHeading.id
        = some "intro" :=
  active_section_level2or3_or_fallback [⟨"intro", 0, 2⟩] 0 "intro" (by decide)

/-- Witness for C3 on the spec's concrete scroll example. -/
theorem onScroll_last_qualifying_sorted_witness :
    onScroll [(⟨"intro", 0, 2⟩ : ContentHeading), ⟨"setup", 500, 2⟩,
        ⟨"usage", 1000, 3⟩] (thresholdY 599 0)
      = ((sortByTop [(⟨"intro", 0, 2⟩ : ContentHeading), ⟨"setup", 500, 2⟩,
          ⟨"usage", 1000, 3⟩]).filter
            (qualifies (thresholdY 599 0))).getLast?.map ContentHeading.id
    ∧ List.Sorted topLE (sortByTop [(⟨"intro", 0, 2⟩ : ContentHeading),
        ⟨"setup", 500, 2⟩, ⟨"usage", 1000, 3⟩])
    ∧ (sortByTop [(⟨"intro", 0, 2⟩ : ContentHeading), ⟨"setup", 500, 2⟩,
        ⟨"usage", 1000, 3⟩]).Perm
          [⟨"intro", 0, 2⟩, ⟨"setup", 500, 2⟩, ⟨"usage", 1000, 3⟩]
    ∧ onScroll [(⟨"intro", 0, 2⟩ : ContentHeading), ⟨"setup", 500, 2⟩,
        ⟨"usage", 1000, 3⟩] 600 = some "setup" :=
  onScroll_last_qualifying_sorted
    [⟨"intro", 0, 2⟩, ⟨"setup", 500, 2⟩, ⟨"usage", 1000, 3⟩] 599 0 (by decide)

/-- Witness for C6: unregistering "setup" then recomputing at a threshold its
former position would satisfy does not select "setup". -/
theorem onScroll_never_selects_unregistered_witness :
    onScroll (unregisterHeading
      [(⟨"intro", 0, 2⟩ : ContentHeading), ⟨"setup", 500, 2⟩] "setup") 600
      ≠ some "setup" :=
  onScroll_never_selects_unregistered [⟨"intro", 0, 2⟩, ⟨"setup", 500, 2⟩]
    "setup" 600

end Markprompt
